import Mathlib

/-!
Verification of the document ingestion, indexing and retrieval pipeline of the
legal-assistant repository (src/documents/processor.py, src/documents/utils.py,
src/agents/legal_knowledge_agent/tools.py, src/config/settings.py).

Python dictionaries are embedded as association lists over `String` keys with
an insert operation that updates in place when the key exists and appends
otherwise, exactly the behaviour of CPython dict assignment and of the
`{k: v, ..., **a, **b}` literal (later bindings win).  The external ChromaDB
vector store is modelled, following the specification of the VectorStore
collaborator, as a persistent collection of records keyed by id whose `add`
upserts by id.  Floating-point distances are embedded as rationals; exception
texts are carried as plain strings.
-/

namespace LegalAssistant

/-- Values stored in metadata dictionaries: the code only ever writes strings
and integers into them. -/
inductive MVal where
  | s (v : String)
  | i (v : Int)
deriving DecidableEq

/-- Association list with string keys: the embedding of a Python dict. -/
abbrev AList (α : Type) := List (String × α)

/-- Keys of a dict, in insertion order. -/
def alistKeys {α : Type} (d : AList α) : List String := d.map Prod.fst

/-- CPython dict assignment `d[k] = v`: update in place when the key exists,
append otherwise. -/
def alistInsert {α : Type} : AList α → String → α → AList α
  | [], k, v => [(k, v)]
  | (k₀, v₀) :: t, k, v =>
      if k₀ = k then (k, v) :: t else (k₀, v₀) :: alistInsert t k v

/-- Dict lookup `d.get(k)`. -/
def alistLookup {α : Type} : AList α → String → Option α
  | [], _ => none
  | (k₀, v₀) :: t, k => if k₀ = k then some v₀ else alistLookup t k

/-- Splicing `{**d, **ps}`: insert the pairs of `ps` into `d` in order. -/
def alistMergePairs {α : Type} (d : AList α) (ps : List (String × α)) : AList α :=
  ps.foldl (fun a p => alistInsert a p.1 p.2) d

/-- Metadata dictionary. -/
abbrev MDict := AList MVal

/-- Splitting a character list on a separator character; always returns a
nonempty list of (possibly empty) segments. -/
def splitOnChar (c : Char) : List Char → List (List Char)
  | [] => [[]]
  | x :: xs =>
      match splitOnChar c xs with
      | [] => [[]]
      | h :: t => if x = c then [] :: h :: t else (x :: h) :: t

/-- Embedding of `pathlib.Path(s).name`: the last nonempty component of a
POSIX path. -/
def pathName (s : String) : String :=
  ⟨((splitOnChar '/' s.data).filter (fun p => p ≠ [])).getLastD []⟩

/-- A langchain `Document`: page content plus a metadata dict. -/
structure Document where
  page_content : String
  metadata : MDict
deriving DecidableEq

/-- The `DocumentMetadata` dataclass of processor.py. -/
structure DocumentMetadata where
  file : String
  metadata : MDict
deriving DecidableEq

/-- The `CollectionConfig` dataclass of processor.py (the unused
`metadata_fields` list is omitted from the embedding). -/
structure CollectionConfig where
  collection_name : String
  description : String := ""
  chunk_size : Nat := 1000
  chunk_overlap : Nat := 200
  documents : List DocumentMetadata := []
deriving DecidableEq

/-- `Path(chunk.metadata.get('source', '')).name` in
`_add_documents_to_collection`: the basename of the source path carried by the
chunk (the loader always stores a string there; a missing key reads as ""). -/
def sourceFileOf (chunk : Document) : String :=
  pathName (match alistLookup chunk.metadata "source" with
            | some (.s t) => t
            | _ => "")

/-- The `for doc in config.documents: if doc.file == source_file` loop: the
declared metadata of the first document entry matching the source file, `{}`
when none matches. -/
def findDocMetadata : List DocumentMetadata → String → MDict
  | [], _ => []
  | d :: ds, src => if d.file = src then d.metadata else findDocMetadata ds src

/-- The four structural pairs written first into the chunk-metadata dict
literal. -/
def structFields (config : CollectionConfig) (folder_path : String) (i : Nat)
    (chunk : Document) : List (String × MVal) :=
  [("source", .s (sourceFileOf chunk)),
   ("chunk_index", .i (Int.ofNat i)),
   ("collection", .s config.collection_name),
   ("folder_path", .s folder_path)]

/-- The dict literal
`{'source': ..., 'chunk_index': ..., 'collection': ..., 'folder_path': ...,
**doc_metadata, **chunk.metadata}` built for chunk `i` in
`_add_documents_to_collection`. -/
def chunkMetadata (config : CollectionConfig) (folder_path : String) (i : Nat)
    (chunk : Document) : MDict :=
  alistMergePairs
    (alistMergePairs
      (alistMergePairs [] (structFields config folder_path i chunk))
      (findDocMetadata config.documents (sourceFileOf chunk)))
    chunk.metadata

/-- The id `f"{config.collection_name}_{source_file}_{i}"` assigned to chunk
`i`. -/
def chunkId (config : CollectionConfig) (chunk : Document) (i : Nat) : String :=
  config.collection_name ++ "_" ++ sourceFileOf chunk ++ "_" ++ toString i

/-- Inserting rewrites the bound value at `k` and leaves every other key
unchanged. -/
theorem alistLookup_alistInsert {α : Type} (d : AList α) (k k' : String) (v : α) :
    alistLookup (alistInsert d k v) k' = if k = k' then some v else alistLookup d k' := by
  induction d with
  | nil => simp [alistInsert, alistLookup]
  | cons p t ih =>
      obtain ⟨k₀, v₀⟩ := p
      simp only [alistInsert]
      by_cases h : k₀ = k
      · subst h
        rw [if_pos rfl]
        simp only [alistLookup]
        by_cases h' : k₀ = k' <;> simp [h']
      · rw [if_neg h]
        simp only [alistLookup, ih]
        by_cases h' : k₀ = k'
        · subst h'
          have hne : k ≠ k₀ := fun hh => h hh.symm
          simp [hne]
        · simp [h']

/-- Unfolding lemma for merging a cons of pairs. -/
theorem alistMergePairs_cons {α : Type} (d : AList α) (p : String × α)
    (t : List (String × α)) :
    alistMergePairs d (p :: t) = alistMergePairs (alistInsert d p.1 p.2) t := rfl

/-- Lookup misses every association list whose keys avoid `k`. -/
theorem alistLookup_eq_none {α : Type} (l : AList α) (k : String)
    (h : k ∉ l.map Prod.fst) : alistLookup l k = none := by
  induction l with
  | nil => rfl
  | cons p t ih =>
      obtain ⟨k₀, v₀⟩ := p
      have h1 : k₀ ≠ k := by
        intro hh
        exact h (by simp [hh])
      have h2 : k ∉ t.map Prod.fst := by
        intro hh
        exact h (by simp [hh])
      simp only [alistLookup, if_neg h1]
      exact ih h2

/-- Splicing pairs with duplicate-free keys behaves as a right-biased union:
the spliced pairs win, the base dict is the fallback. -/
theorem alistLookup_alistMergePairs {α : Type} (ps : List (String × α)) (d : AList α)
    (k : String) (h : (ps.map Prod.fst).Nodup) :
    alistLookup (alistMergePairs d ps) k =
      (alistLookup ps k <|> alistLookup d k) := by
  induction ps generalizing d with
  | nil => simp [alistMergePairs, alistLookup]
  | cons p t ih =>
      obtain ⟨k₀, v₀⟩ := p
      simp only [List.map, List.nodup_cons] at h
      rw [alistMergePairs_cons, ih _ h.2, alistLookup_alistInsert]
      simp only [alistLookup]
      by_cases hk : k₀ = k
      · subst hk
        rw [if_pos rfl, if_pos rfl,
            alistLookup_eq_none t k₀ h.1]
        simp
      · rw [if_neg hk, if_neg hk]

/-- Keys after an insert: unchanged when the key was already bound, extended
at the end otherwise. -/
theorem alistKeys_alistInsert {α : Type} (d : AList α) (k : String) (v : α) :
    alistKeys (alistInsert d k v) =
      if k ∈ alistKeys d then alistKeys d else alistKeys d ++ [k] := by
  induction d with
  | nil => simp [alistInsert, alistKeys]
  | cons p t ih =>
      obtain ⟨k₀, v₀⟩ := p
      simp only [alistInsert]
      by_cases h : k₀ = k
      · subst h
        simp [alistKeys]
      · rw [if_neg h]
        simp only [alistKeys, List.map, List.mem_cons] at ih ⊢
        rw [ih]
        by_cases hm : k ∈ t.map Prod.fst
        · simp [hm, h]
        · have h1 : ¬(k = k₀) := fun hh => h hh.symm
          simp [hm, h1]

/-- Membership in the keys survives an insert. -/
theorem mem_alistKeys_alistInsert {α : Type} (d : AList α) (k k' : String) (v : α)
    (h : k' ∈ alistKeys d) : k' ∈ alistKeys (alistInsert d k v) := by
  rw [alistKeys_alistInsert]
  split
  · exact h
  · exact List.mem_append_left _ h

/-- An insert never loses duplicate-freeness of the keys. -/
theorem nodup_alistKeys_alistInsert {α : Type} (d : AList α) (k : String) (v : α)
    (h : (alistKeys d).Nodup) : (alistKeys (alistInsert d k v)).Nodup := by
  rw [alistKeys_alistInsert]
  split
  · exact h
  · next hm =>
      refine List.Nodup.append h (List.nodup_singleton k) ?_
      intro a ha hb
      rw [List.mem_singleton] at hb
      exact hm (hb ▸ ha)

/-- Keys of the base dict survive splicing a batch of pairs. -/
theorem mem_alistKeys_alistMergePairs_left {α : Type} (ps : List (String × α))
    (d : AList α) (k : String) (h : k ∈ alistKeys d) :
    k ∈ alistKeys (alistMergePairs d ps) := by
  induction ps generalizing d with
  | nil => exact h
  | cons p t ih =>
      rw [alistMergePairs_cons]
      exact ih _ (mem_alistKeys_alistInsert _ _ _ _ h)

/-- Every key of the spliced batch is a key of the result. -/
theorem mem_alistKeys_alistMergePairs_batch {α : Type} (ps : List (String × α))
    (d : AList α) (p : String × α) (h : p ∈ ps) :
    p.1 ∈ alistKeys (alistMergePairs d ps) := by
  induction ps generalizing d with
  | nil => cases h
  | cons q t ih =>
      rw [alistMergePairs_cons]
      rcases List.mem_cons.mp h with h | h
      · subst h
        refine mem_alistKeys_alistMergePairs_left _ _ _ ?_
        rw [alistKeys_alistInsert]
        split
        · assumption
        · exact List.mem_append_right _ (List.mem_singleton_self _)
      · exact ih _ h

/-- Splicing a batch whose keys are all already bound does not change the key
list at all. -/
theorem alistKeys_alistMergePairs_of_subset {α : Type} (ps : List (String × α))
    (d : AList α) (h : ∀ p ∈ ps, p.1 ∈ alistKeys d) :
    alistKeys (alistMergePairs d ps) = alistKeys d := by
  induction ps generalizing d with
  | nil => rfl
  | cons p t ih =>
      rw [alistMergePairs_cons]
      have hk : alistKeys (alistInsert d p.1 p.2) = alistKeys d := by
        rw [alistKeys_alistInsert, if_pos (h p (List.mem_cons_self p t))]
      rw [ih _ (fun q hq => hk ▸ h q (List.mem_cons_of_mem p hq)), hk]

/-- Splicing a batch never loses duplicate-freeness of the keys. -/
theorem nodup_alistKeys_alistMergePairs {α : Type} (ps : List (String × α))
    (d : AList α) (h : (alistKeys d).Nodup) :
    (alistKeys (alistMergePairs d ps)).Nodup := by
  induction ps generalizing d with
  | nil => exact h
  | cons p t ih =>
      rw [alistMergePairs_cons]
      exact ih _ (nodup_alistKeys_alistInsert _ _ _ h)

/-- Building a dict from the four structural pairs yields exactly those four
pairs: their literal keys are pairwise distinct. -/
theorem alistMergePairs_structFields (config : CollectionConfig) (folder_path : String)
    (i : Nat) (chunk : Document) :
    alistMergePairs [] (structFields config folder_path i chunk) =
      structFields config folder_path i chunk := rfl

/-- Collection config used in the chunk-metadata counterexample: collection
`c` with one declared document `f.pdf` carrying no declared metadata. -/
def c1Config : CollectionConfig :=
  { collection_name := "c", documents := [⟨"f.pdf", []⟩] }

/-- Chunk used in the chunk-metadata counterexample: extraction metadata as
PyPDFLoader produces it, with `source` bound to the full path of the file. -/
def c1Chunk : Document :=
  ⟨"hello", [("source", .s "/docs/a/f.pdf"), ("page", .i 0)]⟩

/-- C1 counterexample: the structural value for the key `source` is the bare
file name `f.pdf`, but the record persisted for this chunk carries the
extraction-provided full path `/docs/a/f.pdf` under `source` — the
extraction metadata, spliced last into the dict literal, overrides the
structural field, so the structural fields are not non-overridable. -/
theorem c1_counterexample :
    sourceFileOf c1Chunk = "f.pdf" ∧
    alistLookup (chunkMetadata c1Config "/docs/a" 0 c1Chunk) "source"
      = some (.s "/docs/a/f.pdf") ∧
    alistLookup (chunkMetadata c1Config "/docs/a" 0 c1Chunk) "source"
      ≠ some (.s (sourceFileOf c1Chunk)) := by
  refine ⟨by decide, by decide, by decide⟩

/-- C1 (amended): in every record written by `_add_documents_to_collection`
the four structural keys `source`, `chunk_index`, `collection`, `folder_path`
are always present, but their values are the lowest precedence, not
non-overridable: a declared DocumentEntry metadata key overrides the
structural value and an extraction-provided key overrides both, the
structural value surviving only as the fallback of that chain. -/
theorem c1_structural_fields_lowest_precedence
    (config : CollectionConfig) (folder_path : String) (i : Nat) (chunk : Document)
    (h1 : (chunk.metadata.map Prod.fst).Nodup)
    (h2 : ((findDocMetadata config.documents (sourceFileOf chunk)).map Prod.fst).Nodup)
    (k : String) (hk : k ∈ ["source", "chunk_index", "collection", "folder_path"]) :
    k ∈ alistKeys (chunkMetadata config folder_path i chunk) ∧
    alistLookup (chunkMetadata config folder_path i chunk) k =
      (alistLookup chunk.metadata k <|>
        (alistLookup (findDocMetadata config.documents (sourceFileOf chunk)) k <|>
          alistLookup (structFields config folder_path i chunk) k)) := by
  constructor
  · refine mem_alistKeys_alistMergePairs_left _ _ _ ?_
    refine mem_alistKeys_alistMergePairs_left _ _ _ ?_
    rw [alistMergePairs_structFields]
    simpa [structFields, alistKeys] using hk
  · unfold chunkMetadata
    rw [alistLookup_alistMergePairs _ _ _ h1,
        alistLookup_alistMergePairs _ _ _ h2,
        alistMergePairs_structFields]

/-- C1 witness: the amended precedence law evaluated on the counterexample
chunk at the key `source`. -/
theorem c1_witness :
    "source" ∈ alistKeys (chunkMetadata c1Config "/docs/a" 0 c1Chunk) ∧
    alistLookup (chunkMetadata c1Config "/docs/a" 0 c1Chunk) "source" =
      (alistLookup c1Chunk.metadata "source" <|>
        (alistLookup (findDocMetadata c1Config.documents (sourceFileOf c1Chunk)) "source" <|>
          alistLookup (structFields c1Config "/docs/a" 0 c1Chunk) "source")) :=
  c1_structural_fields_lowest_precedence c1Config "/docs/a" 0 c1Chunk
    (by decide) (by decide) "source" (by decide)

/-- A record persisted in the vector store: text plus metadata (the embedding
vector is computed from the text by the external embedding provider and
carries no information of its own for these claims). -/
structure VRecord where
  text : String
  metadata : MDict
deriving DecidableEq

/-- A vector-store collection: records keyed by id.  Modelled from the spec:
the VectorStore collaborator (ChromaDB) is external; per the spec it is a
persistent collection of (id, vector, text, metadata) records supporting
upsert, and prior records sharing the same id are overwritten. -/
abbrev Collection := AList VRecord

/-- The `for i, chunk in enumerate(chunks)` loop of
`_add_documents_to_collection`: the parallel `ids`/`documents`/`metadatas`
lists, zipped into id-keyed entries, starting at index `n`. -/
def ingestEntries (config : CollectionConfig) (folder_path : String) :
    Nat → List Document → List (String × VRecord)
  | _, [] => []
  | i, c :: cs =>
      (chunkId config c i, ⟨c.page_content, chunkMetadata config folder_path i c⟩) ::
        ingestEntries config folder_path (i + 1) cs

/-- The whole of `_add_documents_to_collection`: build the entries for all
chunks and hand them to the store's add, which upserts by id. -/
def addDocumentsToCollection (col : Collection) (chunks : List Document)
    (config : CollectionConfig) (folder_path : String) : Collection :=
  alistMergePairs col (ingestEntries config folder_path 0 chunks)

/-- Every entry produced by the ingestion loop carries the id computed by
`chunkId` from the collection name, the chunk's source file and its index. -/
theorem ingestEntries_id (config : CollectionConfig) (folder_path : String) :
    ∀ (cs : List Document) (n : Nat), ∀ e ∈ ingestEntries config folder_path n cs,
      ∃ j : Fin cs.length, e.1 = chunkId config (cs.get j) (n + j.1) := by
  intro cs
  induction cs with
  | nil => intro n e he; cases he
  | cons c cs ih =>
      intro n e he
      rcases List.mem_cons.mp he with he | he
      · exact ⟨⟨0, Nat.succ_pos _⟩, by simp [he]⟩
      · obtain ⟨j, hj⟩ := ih (n + 1) e he
        refine ⟨j.succ, ?_⟩
        simpa [Nat.add_assoc, Nat.add_comm 1 j.1] using hj

/-- C2: every id written by the ingestion of a folder is the deterministic
function `chunkId` of the collection name, the chunk's source file and the
chunk index, and a second ingestion of the identical chunk list upserts over
the records written by the first: the key set of the collection and its
record count are unchanged, and a duplicate-free id set stays
duplicate-free. -/
theorem c2_reingestion_idempotent
    (col : Collection) (chunks : List Document) (config : CollectionConfig)
    (folder_path : String) (h : (alistKeys col).Nodup) :
    (∀ e ∈ ingestEntries config folder_path 0 chunks,
        ∃ j : Fin chunks.length, e.1 = chunkId config (chunks.get j) j.1) ∧
    alistKeys (addDocumentsToCollection
        (addDocumentsToCollection col chunks config folder_path) chunks config folder_path) =
      alistKeys (addDocumentsToCollection col chunks config folder_path) ∧
    (addDocumentsToCollection (addDocumentsToCollection col chunks config folder_path)
        chunks config folder_path).length =
      (addDocumentsToCollection col chunks config folder_path).length ∧
    (alistKeys (addDocumentsToCollection col chunks config folder_path)).Nodup := by
  have hid : ∀ e ∈ ingestEntries config folder_path 0 chunks,
      ∃ j : Fin chunks.length, e.1 = chunkId config (chunks.get j) j.1 := by
    intro e he
    obtain ⟨j, hj⟩ := ingestEntries_id config folder_path chunks 0 e he
    exact ⟨j, by simpa using hj⟩
  have hkeys : alistKeys (addDocumentsToCollection
      (addDocumentsToCollection col chunks config folder_path) chunks config folder_path) =
      alistKeys (addDocumentsToCollection col chunks config folder_path) := by
    unfold addDocumentsToCollection
    exact alistKeys_alistMergePairs_of_subset _ _
      (fun p hp => mem_alistKeys_alistMergePairs_batch _ _ _ hp)
  refine ⟨hid, hkeys, ?_, nodup_alistKeys_alistMergePairs _ _ h⟩
  have := congrArg List.length hkeys
  simpa [alistKeys] using this

/-- C2 witness: the idempotence statement evaluated on a one-chunk batch over
a store holding one unrelated record. -/
theorem c2_witness :
    (∀ e ∈ ingestEntries { collection_name := "c2" } "/r" 0
        [⟨"body", [("source", MVal.s "/r/g.pdf")]⟩],
        ∃ j : Fin ([⟨"body", [("source", MVal.s "/r/g.pdf")]⟩] : List Document).length,
          e.1 = chunkId { collection_name := "c2" }
            (([⟨"body", [("source", MVal.s "/r/g.pdf")]⟩] : List Document).get j) j.1) ∧
    alistKeys (addDocumentsToCollection
        (addDocumentsToCollection [("x", ⟨"t", []⟩)]
          [⟨"body", [("source", MVal.s "/r/g.pdf")]⟩] { collection_name := "c2" } "/r")
        [⟨"body", [("source", MVal.s "/r/g.pdf")]⟩] { collection_name := "c2" } "/r") =
      alistKeys (addDocumentsToCollection [("x", ⟨"t", []⟩)]
        [⟨"body", [("source", MVal.s "/r/g.pdf")]⟩] { collection_name := "c2" } "/r") ∧
    (addDocumentsToCollection
        (addDocumentsToCollection [("x", ⟨"t", []⟩)]
          [⟨"body", [("source", MVal.s "/r/g.pdf")]⟩] { collection_name := "c2" } "/r")
        [⟨"body", [("source", MVal.s "/r/g.pdf")]⟩] { collection_name := "c2" } "/r").length =
      (addDocumentsToCollection [("x", ⟨"t", []⟩)]
        [⟨"body", [("source", MVal.s "/r/g.pdf")]⟩] { collection_name := "c2" } "/r").length ∧
    (alistKeys (addDocumentsToCollection [("x", ⟨"t", []⟩)]
        [⟨"body", [("source", MVal.s "/r/g.pdf")]⟩] { collection_name := "c2" } "/r")).Nodup :=
  c2_reingestion_idempotent [("x", ⟨"t", []⟩)]
    [⟨"body", [("source", MVal.s "/r/g.pdf")]⟩] { collection_name := "c2" } "/r"
    (by decide)

/-- The `Constants` pydantic model of src/config/settings.py with its default
values (float distances embedded as rationals). -/
structure Constants where
  RAG_TRESHOLD_DISTANCES : ℚ := 3 / 10
  RAG_N_RESULTS : Nat := 3
  RAG_EXTRACTED_METADATA : Bool := false
  RAG_EXTRACTED_METADATA_KEYS : List String := ["source", "page_label"]

/-- The module-level `constants = Constants()` singleton. -/
def constants : Constants := {}

/-- One formatted result of `DocumentProcessor.search_documents`:
`{'document': ..., 'metadata': ..., 'distance': ...}`. -/
structure SearchResult where
  document : String
  metadata : MDict
  distance : ℚ
deriving DecidableEq

/-- One entry appended by the `retrieve_data` tool: the chunk content, plus
the projected metadata when metadata extraction is switched on. -/
structure RetrievedItem where
  metadata : Option MDict
  content : String
deriving DecidableEq

/-- The body of the `if` inside the `retrieve_data` loop: what gets appended
for a result that passes the distance comparison. -/
def retrieveOutput (r : SearchResult) : RetrievedItem :=
  if constants.RAG_EXTRACTED_METADATA = true then
    ⟨some (r.metadata.filter
        (fun p => p.1 ∈ constants.RAG_EXTRACTED_METADATA_KEYS)), r.document⟩
  else ⟨none, r.document⟩

/-- The accumulation loop of `retrieve_data` over the results returned by
`search_in_collection`: append an output for every result whose distance is
strictly greater than the configured threshold. -/
def retrieveData (results : List SearchResult) : List RetrievedItem :=
  results.foldl
    (fun outputs r =>
      if constants.RAG_TRESHOLD_DISTANCES < r.distance
      then outputs ++ [retrieveOutput r]
      else outputs)
    []

/-- Unrolling of the `retrieve_data` accumulation loop into a filter-map. -/
theorem retrieveData_loop (results : List SearchResult) :
    ∀ acc : List RetrievedItem,
      results.foldl
        (fun outputs r =>
          if constants.RAG_TRESHOLD_DISTANCES < r.distance
          then outputs ++ [retrieveOutput r]
          else outputs)
        acc =
      acc ++ (results.filter
          (fun r => constants.RAG_TRESHOLD_DISTANCES < r.distance)).map retrieveOutput := by
  induction results with
  | nil => intro acc; simp
  | cons r t ih =>
      intro acc
      by_cases h : constants.RAG_TRESHOLD_DISTANCES < r.distance
      · simp [List.foldl_cons, List.filter_cons, h, ih]
      · simp [List.foldl_cons, List.filter_cons, h, ih]

/-- C3: the list returned by the `retrieve_data` tool is exactly the
projection of those store results whose distance is strictly greater than the
configured threshold, the threshold is 3/10, the store order of the
survivors is preserved (an ascending-distance input stays ascending), and
when the store handed back at most `n_results` results the output also has at
most `n_results` entries. -/
theorem c3_retrieve_data_threshold_filter
    (results : List SearchResult) (n_results : Nat)
    (hlen : results.length ≤ n_results)
    (hsorted : (results.map SearchResult.distance).Sorted (· ≤ ·)) :
    retrieveData results =
      (results.filter
        (fun r => constants.RAG_TRESHOLD_DISTANCES < r.distance)).map retrieveOutput ∧
    constants.RAG_TRESHOLD_DISTANCES = 3 / 10 ∧
    ((results.filter
        (fun r => constants.RAG_TRESHOLD_DISTANCES < r.distance)).map
          SearchResult.distance).Sorted (· ≤ ·) ∧
    (retrieveData results).length ≤ n_results := by
  have hfold := retrieveData_loop results []
  have hmain : retrieveData results =
      (results.filter
        (fun r => constants.RAG_TRESHOLD_DISTANCES < r.distance)).map retrieveOutput := by
    simpa [retrieveData] using hfold
  refine ⟨hmain, rfl, ?_, ?_⟩
  · have hp : List.Pairwise (fun a b : SearchResult => a.distance ≤ b.distance) results :=
      (List.pairwise_map).mp hsorted
    exact (List.pairwise_map).mpr (hp.filter _)
  · rw [hmain]
    calc ((results.filter _).map retrieveOutput).length
        = (results.filter _).length := List.length_map _ _
      _ ≤ results.length := List.length_filter_le _ _
      _ ≤ n_results := hlen

/-- C3 witness: the filter law evaluated on a concrete two-result store
answer, one result below the threshold and one above it. -/
theorem c3_witness :
    retrieveData [⟨"near", [], 1 / 10⟩, ⟨"far", [], 1 / 2⟩] =
      (([⟨"near", [], 1 / 10⟩, ⟨"far", [], 1 / 2⟩] : List SearchResult).filter
        (fun r => constants.RAG_TRESHOLD_DISTANCES < r.distance)).map retrieveOutput ∧
    constants.RAG_TRESHOLD_DISTANCES = 3 / 10 ∧
    ((([⟨"near", [], 1 / 10⟩, ⟨"far", [], 1 / 2⟩] : List SearchResult).filter
        (fun r => constants.RAG_TRESHOLD_DISTANCES < r.distance)).map
          SearchResult.distance).Sorted (· ≤ ·) ∧
    (retrieveData [⟨"near", [], 1 / 10⟩, ⟨"far", [], 1 / 2⟩]).length ≤ 2 :=
  c3_retrieve_data_threshold_filter [⟨"near", [], 1 / 10⟩, ⟨"far", [], 1 / 2⟩] 2
    (by decide)
    (by simp [List.Sorted]; norm_num)

/-- The persistent store: named collections of id-keyed records. -/
abbrev Store := AList Collection

/-- Insertion into a distance-ascending list, used to model the ranked answer
of the external k-NN query. -/
def insertByDistance (r : SearchResult) : List SearchResult → List SearchResult
  | [] => [r]
  | x :: xs =>
      if r.distance ≤ x.distance then r :: x :: xs else x :: insertByDistance r xs

/-- Ranking of scored records in ascending distance. -/
def sortByDistance (l : List SearchResult) : List SearchResult :=
  l.foldr insertByDistance []

/-- Modelled from the spec: the k-NN query of the external VectorStore
(`collection.query`), which scores every record of the collection with the
distance oracle `dist`, ranks ascending, and returns at most `n` results with
metadata passthrough. -/
def queryCollection (dist : String → String → ℚ) (q : String) (n : Nat)
    (col : Collection) : List SearchResult :=
  (sortByDistance (col.map (fun p => ⟨p.2.text, p.2.metadata, dist q p.2.text⟩))).take n

/-- `DocumentProcessor.search_documents`: `get_collection` raises for a
missing collection name; the surrounding `try` catches every exception and
returns the plain empty list; on the normal path the query's ranked answer is
formatted into document/metadata/distance entries. -/
def searchDocuments (dist : String → String → ℚ) (store : Store)
    (collection_name q : String) (n_results : Nat) : List SearchResult :=
  match alistLookup store collection_name with
  | none => []
  | some col => queryCollection dist q n_results col

/-- C4 counterexample: querying the nonexistent collection `missing` returns
the very same value as successfully querying the existing but empty
collection `c` — the plain empty list — so the return carries no
distinguishable collection-not-found signal. -/
theorem c4_counterexample :
    alistLookup ([("c", [])] : Store) "missing" = none ∧
    searchDocuments (fun _ _ => 0) [("c", [])] "missing" "q" 5 =
      searchDocuments (fun _ _ => 0) [("c", [])] "c" "q" 5 ∧
    searchDocuments (fun _ _ => 0) [("c", [])] "missing" "q" 5 = [] := by
  refine ⟨rfl, rfl, rfl⟩

/-- C4 (amended): for every query against a collection name that does not
exist in the store, `search_documents` returns the plain empty list and does
not raise; the empty list is not a distinguishable signal, since a successful
query against an existing empty collection returns the identical value. -/
theorem c4_search_missing_collection_empty
    (dist : String → String → ℚ) (store : Store) (name q : String) (n : Nat)
    (h : alistLookup store name = none) :
    searchDocuments dist store name q n = [] ∧
    searchDocuments dist ((name, ([] : Collection)) :: store) name q n = [] := by
  constructor
  · unfold searchDocuments
    rw [h]
  · simp [searchDocuments, alistLookup, queryCollection, sortByDistance]

/-- C4 witness: the amended statement evaluated on a store holding one
collection, queried under a different name. -/
theorem c4_witness :
    searchDocuments (fun _ _ => 1) [("c", [])] "nope" "q" 5 = [] ∧
    searchDocuments (fun _ _ => 1) (("nope", ([] : Collection)) :: [("c", [])]) "nope" "q" 5 = [] :=
  c4_search_missing_collection_empty (fun _ _ => 1) [("c", [])] "nope" "q" 5 (by decide)

/-- The module-level `IGNORED_FOLDERS` set of processor.py. -/
def IGNORED_FOLDERS : List String :=
  ["__pycache__", ".git", ".vscode", ".idea", "node_modules", ".pytest_cache",
   ".mypy_cache", "venv", "env", ".env", "dist", "build", "egg-info",
   ".DS_Store", "Thumbs.db"]

/-- One entry of the documents root directory as `iterdir` yields it. -/
structure DirEntry where
  name : String
  isDir : Bool
deriving DecidableEq

/-- Embedding of `name.startswith('.')`. -/
def startsWithDot (s : String) : Bool :=
  match s.data with
  | [] => false
  | c :: _ => c = '.'

/-- The `try/except` around `process_folder(folder_path)`: a raised exception
is caught and recorded as `False`. -/
def exceptToBool : Except String Bool → Bool
  | .ok b => b
  | .error _ => false

/-- The body of the `for folder_path in self.documents_root.iterdir()` loop of
`process_all_folders`: skip non-directories, ignored names and hidden names,
otherwise record the caught outcome of `process_folder` under the folder
name. -/
def processFoldersStep (pf : String → Except String Bool)
    (results : AList Bool) (e : DirEntry) : AList Bool :=
  if e.isDir = true then
    if e.name ∈ IGNORED_FOLDERS then results
    else if startsWithDot e.name = true then results
    else alistInsert results e.name (exceptToBool (pf e.name))
  else results

/-- `DocumentProcessor.process_all_folders`: empty report when the documents
root is missing, otherwise one pass of the loop over the root's entries. -/
def processAllFolders (rootExists : Bool) (entries : List DirEntry)
    (pf : String → Except String Bool) : AList Bool :=
  if rootExists = true then entries.foldl (processFoldersStep pf) [] else []

/-- A loop step leaves every key other than the entry's own name unchanged. -/
theorem processFoldersStep_lookup_ne (pf : String → Except String Bool)
    (acc : AList Bool) (a : DirEntry) (k : String) (h : a.name ≠ k) :
    alistLookup (processFoldersStep pf acc a) k = alistLookup acc k := by
  unfold processFoldersStep
  split
  · split
    · rfl
    · split
      · rfl
      · rw [alistLookup_alistInsert, if_neg h]
  · rfl

/-- Folding the loop over entries none of which bear the key `k` leaves the
binding of `k` unchanged. -/
theorem processFolders_foldl_lookup_ne (pf : String → Except String Bool) :
    ∀ (rest : List DirEntry) (acc : AList Bool) (k : String),
      (∀ x ∈ rest, x.name ≠ k) →
      alistLookup (rest.foldl (processFoldersStep pf) acc) k = alistLookup acc k := by
  intro rest
  induction rest with
  | nil => intro acc k _; rfl
  | cons a t ih =>
      intro acc k h
      rw [List.foldl_cons, ih _ k (fun x hx => h x (List.mem_cons_of_mem a hx)),
          processFoldersStep_lookup_ne pf acc a k (h a (List.mem_cons_self a t))]

/-- The loop records, for every processed directory entry, the caught outcome
of `process_folder` under the folder name, whatever the accumulator held. -/
theorem processFolders_loop_lookup (pf : String → Except String Bool) (e : DirEntry)
    (hdir : e.isDir = true) (hig : e.name ∉ IGNORED_FOLDERS)
    (hhid : startsWithDot e.name = false) :
    ∀ (entries : List DirEntry) (acc : AList Bool),
      (entries.map DirEntry.name).Nodup → e ∈ entries →
      alistLookup (entries.foldl (processFoldersStep pf) acc) e.name =
        some (exceptToBool (pf e.name)) := by
  intro entries
  induction entries with
  | nil => intro acc _ he; cases he
  | cons a t ih =>
      intro acc hnd he
      simp only [List.map_cons, List.nodup_cons] at hnd
      rw [List.foldl_cons]
      rcases List.mem_cons.mp he with he | he
      · subst he
        have hne : ∀ x ∈ t, x.name ≠ e.name := by
          intro x hx hxe
          exact hnd.1 (hxe ▸ List.mem_map_of_mem DirEntry.name hx)
        rw [processFolders_foldl_lookup_ne pf t _ e.name hne]
        unfold processFoldersStep
        rw [if_pos hdir, if_neg hig, if_neg (by rw [hhid]; exact Bool.false_ne_true),
            alistLookup_alistInsert, if_pos rfl]
      · exact ih _ hnd.2 he

/-- C5: `process_all_folders` always returns a full per-folder report — every
non-ignored, non-hidden subdirectory of an existing documents root has an
entry in the returned map, bound to the caught outcome of its
`process_folder` call — and an exception raised for one folder is recorded as
`False` for that folder without affecting the others. -/
theorem c5_process_all_folders_full_report
    (entries : List DirEntry) (pf : String → Except String Bool) (e : DirEntry)
    (hnodup : (entries.map DirEntry.name).Nodup)
    (he : e ∈ entries) (hdir : e.isDir = true)
    (hig : e.name ∉ IGNORED_FOLDERS) (hhid : startsWithDot e.name = false) :
    alistLookup (processAllFolders true entries pf) e.name =
      some (exceptToBool (pf e.name)) ∧
    (∀ msg, pf e.name = .error msg →
      alistLookup (processAllFolders true entries pf) e.name = some false) := by
  have hmain : alistLookup (processAllFolders true entries pf) e.name =
      some (exceptToBool (pf e.name)) := by
    unfold processAllFolders
    rw [if_pos rfl]
    exact processFolders_loop_lookup pf e hdir hig hhid entries [] hnodup he
  refine ⟨hmain, ?_⟩
  intro msg hmsg
  rw [hmain, hmsg]
  rfl

/-- Folder-processing outcome used by the C5 witness: processing the folder
`laws` raises, every other folder succeeds. -/
def c5pf (n : String) : Except String Bool :=
  if n = "laws" then Except.error "boom" else Except.ok true

/-- C5 witness: a three-entry root (one processed folder whose processing
raises, one ignored hidden folder, one plain file); the raising folder is
recorded as `False`. -/
theorem c5_witness :
    alistLookup (processAllFolders true
        [⟨"laws", true⟩, ⟨".git", true⟩, ⟨"notes.txt", false⟩] c5pf) "laws" =
      some (exceptToBool (c5pf "laws")) ∧
    (∀ msg, c5pf "laws" = Except.error msg →
      alistLookup (processAllFolders true
        [⟨"laws", true⟩, ⟨".git", true⟩, ⟨"notes.txt", false⟩] c5pf) "laws" =
        some false) :=
  c5_process_all_folders_full_report
    [⟨"laws", true⟩, ⟨".git", true⟩, ⟨"notes.txt", false⟩] c5pf
    ⟨"laws", true⟩ (by decide) (by decide) (by decide) (by decide) (by decide)

/-- Embedding of `pathlib.Path(s).suffix.lower()`: the extension of the last
path component, lowercased; empty when the name has no dot, starts with its
only dot, or ends in a dot. -/
def extSuffixLower (s : String) : String :=
  match (splitOnChar '.' (pathName s).data).reverse with
  | [] => ""
  | seg :: rest =>
      if rest = [] ∨ rest = [[]] ∨ seg = [] then ""
      else ⟨'.' :: seg.map Char.toLower⟩

/-- The check `file_path.suffix.lower() == '.pdf'`. -/
def isPdfFile (f : String) : Bool := extSuffixLower f = ".pdf"

/-- One entry of the descriptor's `documents` list, as far as
`validate_metadata_file` reads it: whether the dict has a `file` key and its
value. -/
structure DocEntry where
  file : Option String
deriving DecidableEq

/-- A parsed `metadata.yaml` as far as `validate_metadata_file` reads it:
presence of `collection_name`, and the `documents` key (absent / present but
None / present with a list of entries). -/
structure Descriptor where
  collection_name_present : Bool
  documents : Option (Option (List DocEntry))
deriving DecidableEq

/-- The per-file dict stored under `file_check`. -/
structure FileCheck where
  fileExists : Bool
  isPdf : Bool
deriving DecidableEq

/-- The `validation_results` dict: the four keys `valid`, `errors`,
`warnings`, `file_check` are always present, as fields of this structure. -/
structure ValidationResults where
  valid : Bool
  errors : List String
  warnings : List String
  file_check : AList FileCheck
deriving DecidableEq

/-- The entry appended by the `except` arm,
`f"Error reading metadata file: {e}"`. -/
def readErrorEntry (msg : String) : String := "Error reading metadata file: " ++ msg

/-- Text of the `KeyError` raised by `doc['file']` in the orphan scan when a
document entry lacks the `file` key. -/
def keyErrorFile : String := "\x27file\x27"

/-- Text of the `TypeError` raised by `field not in data` when the YAML file
parses to `None`. -/
def noneTypeError : String := "argument of type \x27NoneType\x27 is not iterable"

/-- The `validation_results` dict as initialised. -/
def initValidation : ValidationResults := ⟨true, [], [], []⟩

/-- The `except Exception` arm: mark invalid and append one read-error
entry, keeping everything collected so far. -/
def crashWith (r : ValidationResults) (msg : String) : ValidationResults :=
  { r with
    valid := false
    errors := r.errors ++ [readErrorEntry msg] }

/-- The `for field in required_fields` loop over
`['collection_name', 'documents']`. -/
def requiredFieldsCheck (d : Descriptor) : ValidationResults :=
  let r1 :=
    if d.collection_name_present then initValidation
    else { initValidation with
           errors := ["Missing required field: collection_name"]
           valid := false }
  if d.documents.isSome then r1
  else { r1 with
         errors := r1.errors ++ ["Missing required field: documents"]
         valid := false }

/-- The `for doc in data['documents']` loop: record `file_check`, an error
for a missing `file` key or a missing file, a warning for a non-PDF file. -/
def validateDocsLoop (fs : List String) : List DocEntry → ValidationResults → ValidationResults
  | [], r => r
  | d :: ds, r =>
      match d.file with
      | none =>
          validateDocsLoop fs ds
            { r with
              errors := r.errors ++ ["Document entry missing \x27file\x27 field"]
              valid := false }
      | some f =>
          let r1 := { r with
            file_check := alistInsert r.file_check f ⟨decide (f ∈ fs), isPdfFile f⟩ }
          let r2 :=
            if f ∈ fs then
              (if isPdfFile f then r1
               else { r1 with warnings := r1.warnings ++ ["File is not a PDF: " ++ f] })
            else { r1 with
                   errors := r1.errors ++ ["File not found: " ++ f]
                   valid := false }
          validateDocsLoop fs ds r2

/-- `validate_metadata_file`, over the outcome of reading and parsing the
YAML file (`read`) and the names of the files present in the folder (`fs`).
The function is total: an unreadable file, a YAML `None`, and the `KeyError`
of the orphan scan all land in the `except` arm, which converts them into
`valid=False` plus one read-error entry; the result always carries the four
keys as structure fields. -/
def validate_metadata_file (read : Except String (Option Descriptor))
    (fs : List String) : ValidationResults :=
  match read with
  | .error msg => crashWith initValidation msg
  | .ok none => crashWith initValidation noneTypeError
  | .ok (some d) =>
      let r2 := requiredFieldsCheck d
      match d.documents with
      | none => r2
      | some none =>
          { r2 with
            errors := r2.errors ++ ["Data without documents"]
            valid := false }
      | some (some docs) =>
          let r3 := validateDocsLoop fs docs r2
          if docs.all (fun doc => doc.file.isSome) then
            let metadataFiles := docs.filterMap DocEntry.file
            let orphaned := (fs.filter (fun f => isPdfFile f)).filter
              (fun f => ¬ f ∈ metadataFiles)
            if orphaned = [] then r3
            else { r3 with warnings := r3.warnings ++
                    ["PDF files not in metadata: " ++ String.intercalate ", " orphaned] }
          else crashWith r3 keyErrorFile

/-- C6: a single `validate_metadata_file` call on a descriptor that is
missing `collection_name`, references one nonexistent file and lists one
existing non-PDF file collects all three diagnostics in one pass — two
errors and one warning, three entries in total — instead of stopping at the
first failure (the folder is assumed to hold no stray PDF files, so the
orphan scan stays silent). -/
theorem c6_validator_collects_three_entries
    (f1 f2 : String) (fs : List String)
    (h1 : f1 ∉ fs) (h2 : f2 ∈ fs) (h3 : isPdfFile f2 = false)
    (h4 : fs.filter (fun f => isPdfFile f) = []) :
    (validate_metadata_file
        (.ok (some ⟨false, some (some [⟨some f1⟩, ⟨some f2⟩])⟩)) fs).errors =
      ["Missing required field: collection_name", "File not found: " ++ f1] ∧
    (validate_metadata_file
        (.ok (some ⟨false, some (some [⟨some f1⟩, ⟨some f2⟩])⟩)) fs).warnings =
      ["File is not a PDF: " ++ f2] ∧
    (validate_metadata_file
        (.ok (some ⟨false, some (some [⟨some f1⟩, ⟨some f2⟩])⟩)) fs).errors.length +
      (validate_metadata_file
        (.ok (some ⟨false, some (some [⟨some f1⟩, ⟨some f2⟩])⟩)) fs).warnings.length = 3 ∧
    (validate_metadata_file
        (.ok (some ⟨false, some (some [⟨some f1⟩, ⟨some f2⟩])⟩)) fs).valid = false := by
  have hr : validate_metadata_file
      (.ok (some ⟨false, some (some [⟨some f1⟩, ⟨some f2⟩])⟩)) fs =
      { valid := false
        errors := ["Missing required field: collection_name", "File not found: " ++ f1]
        warnings := ["File is not a PDF: " ++ f2]
        file_check := alistInsert (alistInsert [] f1 ⟨decide (f1 ∈ fs), isPdfFile f1⟩)
          f2 ⟨decide (f2 ∈ fs), isPdfFile f2⟩ } := by
    simp [validate_metadata_file, requiredFieldsCheck, validateDocsLoop, initValidation,
      h1, h2, h3, h4]
  rw [hr]
  exact ⟨rfl, rfl, rfl, rfl⟩

/-- C6 witness: the exhaustive-collection statement evaluated on a folder
holding only `notes.txt`, with a descriptor listing `missing.pdf` and
`notes.txt` and lacking `collection_name`. -/
theorem c6_witness :
    (validate_metadata_file
        (.ok (some ⟨false, some (some [⟨some "missing.pdf"⟩, ⟨some "notes.txt"⟩])⟩))
        ["notes.txt"]).errors =
      ["Missing required field: collection_name", "File not found: " ++ "missing.pdf"] ∧
    (validate_metadata_file
        (.ok (some ⟨false, some (some [⟨some "missing.pdf"⟩, ⟨some "notes.txt"⟩])⟩))
        ["notes.txt"]).warnings =
      ["File is not a PDF: " ++ "notes.txt"] ∧
    (validate_metadata_file
        (.ok (some ⟨false, some (some [⟨some "missing.pdf"⟩, ⟨some "notes.txt"⟩])⟩))
        ["notes.txt"]).errors.length +
      (validate_metadata_file
        (.ok (some ⟨false, some (some [⟨some "missing.pdf"⟩, ⟨some "notes.txt"⟩])⟩))
        ["notes.txt"]).warnings.length = 3 ∧
    (validate_metadata_file
        (.ok (some ⟨false, some (some [⟨some "missing.pdf"⟩, ⟨some "notes.txt"⟩])⟩))
        ["notes.txt"]).valid = false :=
  c6_validator_collects_three_entries "missing.pdf" "notes.txt" ["notes.txt"]
    (by decide) (by decide) (by decide) (by decide)

/-- C10: `validate_metadata_file` is total at its public interface.  The
result is a `ValidationResults`, so the four keys are always present; a
failed read yields `valid=False` with exactly the one read-error entry, a
YAML file parsing to `None` raises `TypeError` at the first `in data` test
and yields the same shape, and the `KeyError` raised by the orphan scan when
a document entry lacks `file` is converted into `valid=False` with a single
read-error entry appended after everything already collected. -/
theorem c10_validate_metadata_total
    (read : Except String (Option Descriptor)) (fs : List String) :
    (∀ msg, read = .error msg →
      validate_metadata_file read fs = ⟨false, [readErrorEntry msg], [], []⟩) ∧
    (read = .ok none →
      validate_metadata_file read fs = ⟨false, [readErrorEntry noneTypeError], [], []⟩) ∧
    (∀ (d : Descriptor) (docs : List DocEntry),
      read = .ok (some d) → d.documents = some (some docs) →
      docs.all (fun doc => doc.file.isSome) = false →
      validate_metadata_file read fs =
        crashWith (validateDocsLoop fs docs (requiredFieldsCheck d)) keyErrorFile ∧
      (validate_metadata_file read fs).valid = false ∧
      (validate_metadata_file read fs).errors =
        (validateDocsLoop fs docs (requiredFieldsCheck d)).errors ++
          [readErrorEntry keyErrorFile]) := by
  refine ⟨?_, ?_, ?_⟩
  · intro msg h
    subst h
    rfl
  · intro h
    subst h
    rfl
  · intro d docs h hdocs hcrash
    subst h
    have hv : validate_metadata_file (.ok (some d)) fs =
        crashWith (validateDocsLoop fs docs (requiredFieldsCheck d)) keyErrorFile := by
      simp [validate_metadata_file, hdocs, hcrash]
    exact ⟨hv, by rw [hv]; rfl, by rw [hv]; simp [crashWith]⟩

/-- C10 witness: the totality statement evaluated on an unreadable file and
on a descriptor whose single document entry lacks the `file` key. -/
theorem c10_witness :
    validate_metadata_file (.error "io fail") [] =
      ⟨false, [readErrorEntry "io fail"], [], []⟩ ∧
    validate_metadata_file (.ok (some ⟨true, some (some [⟨none⟩])⟩)) [] =
      crashWith (validateDocsLoop [] [⟨none⟩]
        (requiredFieldsCheck ⟨true, some (some [⟨none⟩])⟩)) keyErrorFile :=
  ⟨(c10_validate_metadata_total (.error "io fail") []).1 "io fail" rfl,
   ((c10_validate_metadata_total (.ok (some ⟨true, some (some [⟨none⟩])⟩)) []).2.2
      ⟨true, some (some [⟨none⟩])⟩ [⟨none⟩] rfl rfl (by decide)).1⟩

/-- The `for doc_metadata in config.documents` loop of `process_folder`:
skip missing files, extract each existing file, and extend `all_documents`
with every nonempty extraction. -/
def gatherDocuments (docs : List DocumentMetadata) (existsF : String → Bool)
    (extract : String → List Document) : List Document :=
  docs.foldl
    (fun acc dm =>
      if existsF dm.file = true then
        (if (extract dm.file).isEmpty then acc else acc ++ extract dm.file)
      else acc)
    []

/-- `DocumentProcessor.process_folder`: fail on a missing or invalid
descriptor, fail when no document text was gathered, otherwise split the
gathered documents (the external text splitter is the parameter `split`) and
ingest the chunks into the collection. -/
def processFolder (cfg? : Option CollectionConfig) (existsF : String → Bool)
    (extract : String → List Document) (split : List Document → List Document)
    (col : Collection) (folder_path : String) : Collection × Bool :=
  match cfg? with
  | none => (col, false)
  | some cfg =>
      let all := gatherDocuments cfg.documents existsF extract
      if all.isEmpty then (col, false)
      else (addDocumentsToCollection col (split all) cfg folder_path, true)

/-- When every listed file is missing or extracts to nothing, the gathering
loop never extends its accumulator. -/
theorem gatherDocuments_eq_nil (docs : List DocumentMetadata)
    (existsF : String → Bool) (extract : String → List Document)
    (h : ∀ dm ∈ docs, existsF dm.file = false ∨ extract dm.file = []) :
    gatherDocuments docs existsF extract = [] := by
  suffices hgen : ∀ acc : List Document,
      docs.foldl
        (fun acc dm =>
          if existsF dm.file = true then
            (if (extract dm.file).isEmpty then acc else acc ++ extract dm.file)
          else acc)
        acc = acc from hgen []
  induction docs with
  | nil => intro acc; rfl
  | cons dm ds ih =>
      intro acc
      rw [List.foldl_cons]
      have hstep : (if existsF dm.file = true then
          (if (extract dm.file).isEmpty then acc else acc ++ extract dm.file)
          else acc) = acc := by
        cases hx : existsF dm.file with
        | false => simp
        | true =>
            rcases h dm (List.mem_cons_self dm ds) with hc | hc
            · exact absurd (hx.symm.trans hc) (by decide)
            · rw [if_pos rfl, if_pos (by rw [hc]; rfl)]
      rw [hstep]
      exact ih (fun x hx => h x (List.mem_cons_of_mem dm hx)) acc

/-- C7: a folder whose descriptor loads but for which every listed file is
missing or fails extraction yields zero gathered documents, and
`process_folder` reports the folder as a failure, leaving the collection
untouched. -/
theorem c7_process_folder_fails_without_documents
    (cfg : CollectionConfig) (existsF : String → Bool)
    (extract : String → List Document) (split : List Document → List Document)
    (col : Collection) (folder_path : String)
    (h : ∀ dm ∈ cfg.documents, existsF dm.file = false ∨ extract dm.file = []) :
    processFolder (some cfg) existsF extract split col folder_path = (col, false) := by
  simp [processFolder, gatherDocuments_eq_nil cfg.documents existsF extract h]

/-- C7 witness: one declared document whose file is missing. -/
theorem c7_witness :
    processFolder (some { collection_name := "c7", documents := [⟨"a.pdf", []⟩] })
      (fun _ => false) (fun _ => []) (fun l => l) [] "/f" = ([], false) :=
  c7_process_folder_fails_without_documents
    { collection_name := "c7", documents := [⟨"a.pdf", []⟩] }
    (fun _ => false) (fun _ => []) (fun l => l) [] "/f" (by decide)

/-- One folder of the documents root as `rebuild_collection` scans it:
`collection_name` is `none` when the folder has no `metadata.yaml`, and
otherwise holds `data.get('collection_name')` of the parsed descriptor. -/
structure Folder where
  path : String
  collection_name : Option (Option String)
deriving DecidableEq

/-- The scanning loop of `rebuild_collection`: the first folder whose
descriptor declares the wanted collection name, breaking at the match. -/
def findTargetFolder (name : String) : List Folder → Option Folder
  | [] => none
  | f :: rest =>
      match f.collection_name with
      | some (some n) => if n = name then some f else findTargetFolder name rest
      | _ => findTargetFolder name rest

/-- `chroma_client.delete_collection`: drop the named collection. -/
def deleteCollectionStore (store : Store) (name : String) : Store :=
  store.filter (fun p => p.1 ≠ name)

/-- `rebuild_collection`: delete the collection when it exists, then scan the
folders for a descriptor declaring the name; fail when none does, otherwise
re-run folder processing (abstracted as `pf`) on the located folder over the
already-deleted store. -/
def rebuildCollection (store : Store) (folders : List Folder) (name : String)
    (pf : Folder → Store → Store × Bool) : Store × Bool :=
  let store1 := if name ∈ alistKeys store then deleteCollectionStore store name else store
  match findTargetFolder name folders with
  | none => (store1, false)
  | some f => pf f store1

/-- The scan misses when no folder descriptor declares the name. -/
theorem findTargetFolder_eq_none (name : String) (folders : List Folder)
    (h : ∀ f ∈ folders, f.collection_name ≠ some (some name)) :
    findTargetFolder name folders = none := by
  induction folders with
  | nil => rfl
  | cons f rest ih =>
      have hrest := ih (fun g hg => h g (List.mem_cons_of_mem f hg))
      cases hf : f.collection_name with
      | none => simp [findTargetFolder, hf, hrest]
      | some cn =>
          cases cn with
          | none => simp [findTargetFolder, hf, hrest]
          | some n =>
              have hne : n ≠ name := fun hn =>
                h f (List.mem_cons_self f rest) (by rw [hf, hn])
              simp [findTargetFolder, hf, hne, hrest]

/-- The scan returns the first matching folder. -/
theorem findTargetFolder_first (name : String) (pre : List Folder) (f : Folder)
    (post : List Folder)
    (hpre : ∀ g ∈ pre, g.collection_name ≠ some (some name))
    (hf : f.collection_name = some (some name)) :
    findTargetFolder name (pre ++ f :: post) = some f := by
  induction pre with
  | nil =>
      rw [List.nil_append]
      simp [findTargetFolder, hf]
  | cons g rest ih =>
      have hrest := ih (fun x hx => hpre x (List.mem_cons_of_mem g hx))
      rw [List.cons_append]
      cases hg : g.collection_name with
      | none => simp [findTargetFolder, hg, hrest]
      | some cn =>
          cases cn with
          | none => simp [findTargetFolder, hg, hrest]
          | some n =>
              have hne : n ≠ name := fun hn =>
                hpre g (List.mem_cons_self g rest) (by rw [hg, hn])
              simp [findTargetFolder, hg, hne, hrest]

/-- C8: `rebuild_collection` first deletes the existing collection, then
scans the folders for a descriptor declaring the collection name.  When no
descriptor declares it, the call fails, returning `False`; when one does, the
ingestion re-run happens on exactly the first matching folder, over the
already-deleted store. -/
theorem c8_rebuild_locates_folder_or_fails
    (store : Store) (folders : List Folder) (name : String)
    (pf : Folder → Store → Store × Bool) :
    ((∀ f ∈ folders, f.collection_name ≠ some (some name)) →
      rebuildCollection store folders name pf =
        ((if name ∈ alistKeys store then deleteCollectionStore store name else store),
          false)) ∧
    (∀ (pre : List Folder) (f : Folder) (post : List Folder),
      folders = pre ++ f :: post →
      (∀ g ∈ pre, g.collection_name ≠ some (some name)) →
      f.collection_name = some (some name) →
      rebuildCollection store folders name pf =
        pf f (if name ∈ alistKeys store then deleteCollectionStore store name else store)) := by
  constructor
  · intro h
    unfold rebuildCollection
    rw [findTargetFolder_eq_none name folders h]
  · intro pre f post hsplit hpre hf
    subst hsplit
    unfold rebuildCollection
    rw [findTargetFolder_first name pre f post hpre hf]

/-- C8 witness: a two-folder root whose second folder declares collection
`a`; rebuilding `b` fails after deleting nothing, rebuilding `a` re-runs
ingestion on that folder over the store without `a`. -/
theorem c8_witness :
    rebuildCollection [("a", [])] [⟨"/d/x", some none⟩, ⟨"/d/y", some (some "a")⟩]
      "b" (fun _ s => (s, true)) =
      ((if "b" ∈ alistKeys ([("a", [])] : Store)
        then deleteCollectionStore [("a", [])] "b" else [("a", [])]), false) ∧
    rebuildCollection [("a", [])] [⟨"/d/x", some none⟩, ⟨"/d/y", some (some "a")⟩]
      "a" (fun _ s => (s, true)) =
      (fun _ s => (s, true)) (⟨"/d/y", some (some "a")⟩ : Folder)
        (if "a" ∈ alistKeys ([("a", [])] : Store)
         then deleteCollectionStore [("a", [])] "a" else [("a", [])]) :=
  ⟨(c8_rebuild_locates_folder_or_fails [("a", [])]
      [⟨"/d/x", some none⟩, ⟨"/d/y", some (some "a")⟩] "b" (fun _ s => (s, true))).1
      (by decide),
   (c8_rebuild_locates_folder_or_fails [("a", [])]
      [⟨"/d/x", some none⟩, ⟨"/d/y", some (some "a")⟩] "a" (fun _ s => (s, true))).2
      [⟨"/d/x", some none⟩] ⟨"/d/y", some (some "a")⟩ [] rfl (by decide) rfl⟩

/-- Deleting a collection removes its name from the store's key set. -/
theorem not_mem_alistKeys_deleteCollectionStore (store : Store) (name : String) :
    name ∉ alistKeys (deleteCollectionStore store name) := by
  intro h
  obtain ⟨p, hp, hpn⟩ := List.mem_map.mp h
  have := List.of_mem_filter hp
  rw [hpn] at this
  simp at this

/-- C9: when the collection existed and no folder descriptor declares its
name, `rebuild_collection` returns `False` but has already deleted the
collection before the scan: the store no longer holds the name and differs
from the store the call started with — the failure path is not atomic. -/
theorem c9_rebuild_failure_not_atomic
    (store : Store) (folders : List Folder) (name : String)
    (pf : Folder → Store → Store × Bool)
    (hmem : name ∈ alistKeys store)
    (hnomatch : ∀ f ∈ folders, f.collection_name ≠ some (some name)) :
    (rebuildCollection store folders name pf).2 = false ∧
    name ∉ alistKeys (rebuildCollection store folders name pf).1 ∧
    (rebuildCollection store folders name pf).1 ≠ store := by
  have hr : rebuildCollection store folders name pf =
      (deleteCollectionStore store name, false) := by
    unfold rebuildCollection
    rw [findTargetFolder_eq_none name folders hnomatch, if_pos hmem]
  rw [hr]
  refine ⟨rfl, not_mem_alistKeys_deleteCollectionStore store name, ?_⟩
  intro heq
  have heq2 : deleteCollectionStore store name = store := heq
  exact not_mem_alistKeys_deleteCollectionStore store name
    (by rw [heq2]; exact hmem)

/-- C9 witness: a store holding collection `a` and a single folder without a
descriptor; rebuilding `a` fails yet deletes `a`. -/
theorem c9_witness :
    (rebuildCollection [("a", [])] [⟨"/d/x", none⟩] "a" (fun _ s => (s, true))).2 = false ∧
    "a" ∉ alistKeys
      (rebuildCollection [("a", [])] [⟨"/d/x", none⟩] "a" (fun _ s => (s, true))).1 ∧
    (rebuildCollection [("a", [])] [⟨"/d/x", none⟩] "a" (fun _ s => (s, true))).1 ≠
      [("a", [])] :=
  c9_rebuild_failure_not_atomic [("a", [])] [⟨"/d/x", none⟩] "a" (fun _ s => (s, true))
    (by decide) (by decide)

end LegalAssistant
